import Mathlib

/-!
Verification of the `ts-souko` typed-storage library: a shallow embedding of
`src/Codec.ts`, `src/BaseStorage.ts` and `src/TypedStorage.ts` in Lean 4,
together with proofs of the specified properties of the codec catalog and
the typed-storage facade.

Modelling conventions:
* a thrown JavaScript value is `Thrown`: either an object carrying a string
  `message` (the only kind the library itself throws, always `Error`s built
  from a message) or an arbitrary value without one;
* fallible functions return `Except Thrown _`; `Codec.encode`/`Codec.decode`
  may throw, mirroring the TypeScript `Codec<T>` interface;
* the platform services used by the code (`JSON.parse`, `JSON.stringify` on
  arrays of strings, `BigInt(string)`) are modelled as executable Lean
  functions following the ECMAScript algorithms (see the doc comments of
  `jsonParse`, `jsonStringifyStrArr` and `stringToBigInt`);
* JavaScript `number` together with `Number(string)`/`Number.prototype.toString`
  is kept abstract as `NumModel`, whose propositional fields record the
  round-trip guarantees the ECMAScript specification gives for those
  operations; a small concrete instance `miniNumModel` witnesses that the
  model is inhabited.
-/

namespace TsSouko

/-- A thrown JavaScript value: an object exposing a string `message`
(the case `hasStringMessage` in `TypedStorage.ts` recognises), or anything
else. -/
inductive Thrown where
  | errorMsg (message : String)
  | nonMessage
deriving DecidableEq, Repr

/-- Embeds `decodeError` of `Codec.ts`:
`new Error(\x60input '${input}' is not decodable as ${typeName}\x60)`. -/
def decodeError (input : String) (typeName : String) : Thrown :=
  .errorMsg ("input \x27" ++ input ++ "\x27 is not decodable as " ++ typeName)

/-- Embeds the `Codec<T>` interface of `Codec.ts`: paired string
conversions, each of which may throw. -/
structure Codec (T : Type) where
  encode : T → Except Thrown String
  decode : String → Except Thrown T

/-! ### JSON values and a model of `JSON.parse` / `JSON.stringify`

`JSON.parse` and `JSON.stringify` are platform services of the JavaScript
host, not code of this repository; they are modelled here by an executable
parser/printer following the ECMAScript JSON grammar (RFC 8259).  Numbers
are kept as their source lexeme, since the library never inspects a parsed
number beyond its type tag.  Lone-surrogate `\uXXXX` escapes (which Lean
`Char` cannot represent) are the one knowing simplification. -/

/-- A parsed JSON document. -/
inductive Json where
  | null
  | bool (b : Bool)
  | num (lexeme : String)
  | str (s : String)
  | arr (elems : List Json)
  | obj (members : List (String × Json))

/-- The four JSON whitespace characters. -/
def isJsonWs (c : Char) : Bool :=
  c == ' ' || c == '\t' || c == '\n' || c == '\r'

/-- Drops leading JSON whitespace. -/
def skipWs : List Char → List Char
  | [] => []
  | c :: cs => if isJsonWs c then skipWs cs else c :: cs

/-- Decimal digit test on code points (avoids `Char.isDigit` so that proofs
can reason on `Char.toNat` bounds directly). -/
def isDecDigit (c : Char) : Bool :=
  48 ≤ c.toNat && c.toNat ≤ 57

/-- Value of a hexadecimal digit. -/
def hexVal (c : Char) : Option Nat :=
  if 48 ≤ c.toNat && c.toNat ≤ 57 then some (c.toNat - 48)
  else if 97 ≤ c.toNat && c.toNat ≤ 102 then some (c.toNat - 97 + 10)
  else if 65 ≤ c.toNat && c.toNat ≤ 70 then some (c.toNat - 65 + 10)
  else none

/-- Parses the remainder of a JSON string literal (the opening quote has
been consumed); returns the decoded string and the input after the closing
quote. -/
def parseJStr (acc : List Char) : List Char → Option (String × List Char)
  | [] => none
  | '"' :: rest => some (String.mk acc.reverse, rest)
  | '\\' :: '"' :: rest => parseJStr ('"' :: acc) rest
  | '\\' :: '\\' :: rest => parseJStr ('\\' :: acc) rest
  | '\\' :: '/' :: rest => parseJStr ('/' :: acc) rest
  | '\\' :: 'b' :: rest => parseJStr (Char.ofNat 8 :: acc) rest
  | '\\' :: 'f' :: rest => parseJStr (Char.ofNat 12 :: acc) rest
  | '\\' :: 'n' :: rest => parseJStr ('\n' :: acc) rest
  | '\\' :: 'r' :: rest => parseJStr ('\r' :: acc) rest
  | '\\' :: 't' :: rest => parseJStr ('\t' :: acc) rest
  | '\\' :: 'u' :: h1 :: h2 :: h3 :: h4 :: rest =>
    match hexVal h1, hexVal h2, hexVal h3, hexVal h4 with
    | some a, some b, some c, some d =>
      parseJStr (Char.ofNat (((a * 16 + b) * 16 + c) * 16 + d) :: acc) rest
    | _, _, _, _ => none
  | '\\' :: _ => none
  | c :: rest => if c.toNat < 32 then none else parseJStr (c :: acc) rest

/-- Takes the longest prefix of decimal digits. -/
def takeDigits : List Char → List Char × List Char
  | [] => ([], [])
  | c :: cs =>
    if isDecDigit c then
      let (d, r) := takeDigits cs
      (c :: d, r)
    else ([], c :: cs)

/-- Parses a JSON number and returns its lexeme (JSON grammar:
`-? (0 | [1-9][0-9]*) (. [0-9]+)? ([eE][+-]?[0-9]+)?`). -/
def parseNumLexeme (cs : List Char) : Option (List Char × List Char) :=
  let (sign, cs1) :=
    match cs with
    | '-' :: r => (['-'], r)
    | _ => (([] : List Char), cs)
  let intPart? : Option (List Char × List Char) :=
    match cs1 with
    | '0' :: r => some (['0'], r)
    | c :: r =>
      if isDecDigit c && c != '0' then
        let (d, r2) := takeDigits r
        some (c :: d, r2)
      else none
    | [] => none
  match intPart? with
  | none => none
  | some (ip, cs2) =>
    let frac? : Option (List Char × List Char) :=
      match cs2 with
      | '.' :: r =>
        let (d, r2) := takeDigits r
        if d.isEmpty then none else some ('.' :: d, r2)
      | _ => some ([], cs2)
    match frac? with
    | none => none
    | some (fp, cs3) =>
      let exp? : Option (List Char × List Char) :=
        match cs3 with
        | e :: r =>
          if e == 'e' || e == 'E' then
            let (sgn, r1) :=
              match r with
              | '+' :: r2 => (['+'], r2)
              | '-' :: r2 => (['-'], r2)
              | _ => (([] : List Char), r)
            let (d, r2) := takeDigits r1
            if d.isEmpty then none else some (e :: (sgn ++ d), r2)
          else some ([], cs3)
        | [] => some ([], [])
      match exp? with
      | none => none
      | some (ep, cs4) => some (sign ++ ip ++ fp ++ ep, cs4)

mutual

/-- Parses one JSON value (fuel-indexed recursion; `jsonParse` supplies
enough fuel for any input). -/
def parseValue : Nat → List Char → Option (Json × List Char)
  | 0, _ => none
  | fuel + 1, cs0 =>
    match skipWs cs0 with
    | 'n' :: 'u' :: 'l' :: 'l' :: rest => some (.null, rest)
    | 't' :: 'r' :: 'u' :: 'e' :: rest => some (.bool true, rest)
    | 'f' :: 'a' :: 'l' :: 's' :: 'e' :: rest => some (.bool false, rest)
    | '"' :: rest =>
      match parseJStr [] rest with
      | some (s, r) => some (.str s, r)
      | none => none
    | '[' :: rest =>
      match skipWs rest with
      | ']' :: r => some (.arr [], r)
      | r => parseArrayItems fuel r
    | '{' :: rest =>
      match skipWs rest with
      | '}' :: r => some (.obj [], r)
      | r => parseObjMembers fuel r
    | cs =>
      match parseNumLexeme cs with
      | some (lex, r) => some (.num (String.mk lex), r)
      | none => none

/-- Parses the non-empty item list of a JSON array, consuming the closing
bracket. -/
def parseArrayItems : Nat → List Char → Option (Json × List Char)
  | 0, _ => none
  | fuel + 1, cs =>
    match parseValue fuel cs with
    | none => none
    | some (j, rest) =>
      match skipWs rest with
      | ',' :: r =>
        match parseArrayItems fuel r with
        | some (.arr js, r2) => some (.arr (j :: js), r2)
        | _ => none
      | ']' :: r => some (.arr [j], r)
      | _ => none

/-- Parses the non-empty member list of a JSON object, consuming the closing
brace. -/
def parseObjMembers : Nat → List Char → Option (Json × List Char)
  | 0, _ => none
  | fuel + 1, cs =>
    match skipWs cs with
    | '"' :: rest =>
      match parseJStr [] rest with
      | none => none
      | some (k, r1) =>
        match skipWs r1 with
        | ':' :: r2 =>
          match parseValue fuel r2 with
          | none => none
          | some (v, r3) =>
            match skipWs r3 with
            | ',' :: r4 =>
              match parseObjMembers fuel r4 with
              | some (.obj ms, r5) => some (.obj ((k, v) :: ms), r5)
              | _ => none
            | '}' :: r4 => some (.obj [(k, v)], r4)
            | _ => none
        | _ => none
    | _ => none

end

/-- Model of the platform `JSON.parse`: `none` models a thrown
`SyntaxError`. -/
def jsonParse (s : String) : Option Json :=
  match parseValue (s.length + 1) s.toList with
  | some (j, rest) => if skipWs rest = [] then some j else none
  | none => none

/-- Escapes one character as inside a JSON string literal, as
`JSON.stringify` does. -/
def escapeJsonChar (c : Char) : List Char :=
  if c = '"' then ['\\', '"']
  else if c = '\\' then ['\\', '\\']
  else if c = Char.ofNat 8 then ['\\', 'b']
  else if c = Char.ofNat 12 then ['\\', 'f']
  else if c = '\n' then ['\\', 'n']
  else if c = '\r' then ['\\', 'r']
  else if c = '\t' then ['\\', 't']
  else if c.toNat < 32 then
    let hi := c.toNat / 16
    let lo := c.toNat % 16
    ['\\', 'u', '0', '0',
      Char.ofNat (if hi < 10 then 48 + hi else 87 + hi),
      Char.ofNat (if lo < 10 then 48 + lo else 87 + lo)]
  else [c]

/-- A JSON string literal for `s`, as produced by `JSON.stringify`. -/
def quoteJsonString (s : String) : String :=
  "\"" ++ String.mk (s.toList.map escapeJsonChar).flatten ++ "\""

/-- Model of `JSON.stringify` applied to an array of strings (the only
shape the array/tuple codecs serialise). -/
def jsonStringifyStrArr (strs : List String) : String :=
  "[" ++ String.intercalate "," (strs.map quoteJsonString) ++ "]"

/-- Tag test used for `typeof el === 'string'` on parsed JSON entries. -/
def Json.isStr : Json → Bool
  | .str _ => true
  | _ => false

/-- Projection of a parsed JSON entry known to be a string (only applied
after `Json.isStr` has been checked on every entry). -/
def Json.asStr : Json → String
  | .str s => s
  | _ => ""

/-! ### The abstract platform `number` model

The `number` codec delegates to the host's `Number.prototype.toString` and
`Number(string)` conversions.  `NumModel` keeps the number type abstract and
records exactly the facts the ECMAScript specification guarantees about
those conversions (the shortest-round-trip property of `toString`, the
uniqueness of `NaN` and `-0`, and the literal spellings of `NaN` and `-0`).
`Object.is (n, -0)` is modelled by `isNegZero`, `isNaN (n)` by `isNaN`. -/

structure NumModel where
  N : Type
  nanVal : N
  isNaN : N → Bool
  isNegZero : N → Bool
  numToString : N → String
  numOfString : String → N
  ofString_toString : ∀ x, isNaN x = false → isNegZero x = false →
    numOfString (numToString x) = x
  toString_ne_NaN : ∀ x, isNaN x = false → numToString x ≠ "NaN"
  toString_nanVal : numToString nanVal = "NaN"
  eq_nanVal_of_isNaN : ∀ x, isNaN x = true → x = nanVal
  isNegZero_nanVal : isNegZero nanVal = false
  ofString_negZero : ∀ x, isNegZero x = true → numOfString "-0" = x
  isNaN_of_isNegZero : ∀ x, isNegZero x = true → isNaN x = false

/-! ### A model of `BigInt(string)`

`BigInt (s)` follows the ECMAScript `StringToBigInt` algorithm: strip
whitespace; the empty remainder denotes `0`; otherwise accept a
`0b`/`0o`/`0x`-prefixed binary/octal/hexadecimal numeral or an optionally
signed decimal numeral; anything else (a decimal point, an exponent, an `n`
suffix, stray characters) throws a `SyntaxError`, modelled as `none`. -/

/-- JavaScript whitespace accepted around a `BigInt` numeral (the ASCII
part of `StrWhiteSpaceChar` plus NBSP and the BOM). -/
def isJsWhitespace (c : Char) : Bool :=
  c == ' ' || c == '\t' || c == '\n' || c == '\r' || c == '\x0b' ||
    c == '\x0c' || c == Char.ofNat 0xa0 || c == Char.ofNat 0xfeff

/-- Strips leading and trailing JavaScript whitespace. -/
def trimJsWs (cs : List Char) : List Char :=
  ((cs.dropWhile isJsWhitespace).reverse.dropWhile isJsWhitespace).reverse

/-- Value of a digit in the given radix (letters case-insensitively map to
10..35, then the radix bound is checked). -/
def digitValue (radix : Nat) (c : Char) : Option Nat :=
  let d? :=
    if 48 ≤ c.toNat && c.toNat ≤ 57 then some (c.toNat - 48)
    else if 97 ≤ c.toNat && c.toNat ≤ 122 then some (c.toNat - 97 + 10)
    else if 65 ≤ c.toNat && c.toNat ≤ 90 then some (c.toNat - 65 + 10)
    else none
  match d? with
  | some d => if d < radix then some d else none
  | none => none

/-- Positional accumulation of a digit string in the given radix. -/
def parseDigitsAcc (radix : Nat) (acc : Nat) : List Char → Option Nat
  | [] => some acc
  | c :: cs =>
    match digitValue radix c with
    | some d => parseDigitsAcc radix (acc * radix + d) cs
    | none => none

/-- A non-empty digit string in the given radix, or `none`. -/
def digitsToNat (radix : Nat) (cs : List Char) : Option Nat :=
  if cs.isEmpty then none else parseDigitsAcc radix 0 cs

/-- The numeral body of `StringToBigInt`, after whitespace stripping. -/
def stringToBigIntCore (cs : List Char) : Option Int :=
  match cs with
  | [] => some 0
  | c1 :: rest1 =>
    if c1 = '0' then
      match rest1 with
      | [] => (digitsToNat 10 cs).map Int.ofNat
      | c2 :: rest2 =>
        if c2 = 'b' ∨ c2 = 'B' then (digitsToNat 2 rest2).map Int.ofNat
        else if c2 = 'o' ∨ c2 = 'O' then (digitsToNat 8 rest2).map Int.ofNat
        else if c2 = 'x' ∨ c2 = 'X' then (digitsToNat 16 rest2).map Int.ofNat
        else (digitsToNat 10 cs).map Int.ofNat
    else if c1 = '+' then (digitsToNat 10 rest1).map Int.ofNat
    else if c1 = '-' then (digitsToNat 10 rest1).map (fun n => -(n : Int))
    else (digitsToNat 10 cs).map Int.ofNat

/-- Model of the platform `BigInt(string)` conversion (`none` models the
thrown `SyntaxError`). -/
def stringToBigInt (s : String) : Option Int :=
  stringToBigIntCore (trimJsWs s.toList)

/-! ### The codec catalog of `Codec.ts` -/

namespace codecs

/-- Embeds `codecs.string`: identity in both directions. -/
def string : Codec String where
  encode s := .ok s
  decode s := .ok s

/-- Embeds `codecs.number` over an abstract platform number model:
`encode` special-cases `-0` (whose `toString` would lose the sign),
`decode` special-cases the literal `"NaN"` and otherwise rejects any input
whose numeric parse is `NaN`. -/
def number (M : NumModel) : Codec M.N where
  encode n := .ok (if M.isNegZero n then "-0" else M.numToString n)
  decode s :=
    if s = "NaN" then .ok M.nanVal
    else
      let n := M.numOfString s
      if M.isNaN n then .error (decodeError s "number") else .ok n

/-- Embeds `codecs.bigint`: `encode` is decimal `toString`, `decode` is
`BigInt(s)` with the thrown error replaced by a decode error. -/
def bigint : Codec Int where
  encode n := .ok (toString n)
  decode s :=
    match stringToBigInt s with
    | some n => .ok n
    | none => .error (decodeError s "bigint")

/-- Embeds `codecs.boolean`: `encode` is `JSON.stringify`, `decode` parses
JSON and requires the result to be exactly a boolean. -/
def boolean : Codec Bool where
  encode b := .ok (if b then "true" else "false")
  decode s :=
    match jsonParse s with
    | none => .error (decodeError s "boolean")
    | some (.bool b) => .ok b
    | some _ => .error (decodeError s "boolean")

/-- Element traversal of `arrayOf.decode`: the single `try` around
`parsed.map (el => elemCodec.decode (el))` discards the element error, so
only success (`some`) or failure (`none`) is observable. -/
def tryMapDecode {T : Type} (ec : Codec T) : List String → Option (List T)
  | [] => some []
  | e :: es =>
    match ec.decode e with
    | .ok v => (tryMapDecode ec es).map (fun vs => v :: vs)
    | .error _ => none

/-- Element-wise `Codec.encode` traversal for `arrayOf.encode`. -/
def mapEncode {T : Type} (ec : Codec T) : List T → Except Thrown (List String)
  | [] => .ok []
  | v :: vs =>
    match ec.encode v with
    | .ok s => (mapEncode ec vs).map (fun ss => s :: ss)
    | .error e => .error e

/-- Embeds `codecs.arrayOf`: decode parses JSON, requires an array whose
entries are all strings (else a plain "array" decode error), then maps the
element codec over the entries (any element failure becomes an
"array of specified type" decode error naming the whole input). -/
def arrayOf {T : Type} (elemCodec : Codec T) : Codec (List T) where
  encode arr :=
    match mapEncode elemCodec arr with
    | .ok ss => .ok (jsonStringifyStrArr ss)
    | .error e => .error e
  decode s :=
    match jsonParse s with
    | none => .error (decodeError s "array")
    | some parsed =>
      match parsed with
      | .arr elems =>
        if elems.all Json.isStr then
          match tryMapDecode elemCodec (elems.map Json.asStr) with
          | some vs => .ok vs
          | none => .error (decodeError s "array of specified type")
        else .error (decodeError s "array")
      | _ => .error (decodeError s "array")

/-- Element traversal of `tupleOf.decode`: JavaScript `parsed.map` iterates
over the parsed entries, pairing each with `elemCodecs[i]`; a missing codec
(entry index beyond the codec tuple) raises a `TypeError` inside the same
per-element `try`, so both that case and an element decode failure become a
"tuple of specified type" decode error naming the entry (the callback
parameter `s` shadows the whole input in the source). -/
def tupleDecodeElems {T : Type} : List (Codec T) → List String → Except Thrown (List T)
  | _, [] => .ok []
  | [], e :: _ => .error (decodeError e "tuple of specified type")
  | c :: cs, e :: es =>
    match c.decode e with
    | .ok v => (tupleDecodeElems cs es).map (fun vs => v :: vs)
    | .error _ => .error (decodeError e "tuple of specified type")

/-- Element traversal of `tupleOf.encode`: a tuple longer than the codec
list hits `elemCodecs[i] === undefined` and raises an uncaught `TypeError`
(modelled as a message-bearing thrown value). -/
def tupleEncodeElems {T : Type} : List (Codec T) → List T → Except Thrown (List String)
  | _, [] => .ok []
  | [], _ :: _ => .error (.errorMsg "TypeError: codec is undefined")
  | c :: cs, v :: vs =>
    match c.encode v with
    | .ok s => (tupleEncodeElems cs vs).map (fun ss => s :: ss)
    | .error e => .error e

/-- Embeds `codecs.tupleOf` (element codecs of a common Lean value type; a
heterogeneous TypeScript tuple is recovered by instantiating `T` with a sum
type).  Decode parses JSON, requires an array whose entries are all strings
(else a plain "tuple" decode error), then decodes entry `i` with codec `i`
via `tupleDecodeElems`. -/
def tupleOf {T : Type} (elemCodecs : List (Codec T)) : Codec (List T) where
  encode tup :=
    match tupleEncodeElems elemCodecs tup with
    | .ok ss => .ok (jsonStringifyStrArr ss)
    | .error e => .error e
  decode s :=
    match jsonParse s with
    | none => .error (decodeError s "tuple")
    | some parsed =>
      match parsed with
      | .arr elems =>
        if elems.all Json.isStr then
          tupleDecodeElems elemCodecs (elems.map Json.asStr)
        else .error (decodeError s "tuple")
      | _ => .error (decodeError s "tuple")

/-- Model of the thrown `SyntaxError` of `JSON.parse` (its message text is
host-defined; only its presence matters to the library). -/
def jsonParseSyntaxError (s : String) : Thrown :=
  .errorMsg ("SyntaxError: unexpected token in JSON input " ++ s)

/-- Embeds `validateParsedJSON` of `Codec.ts`: the `try`/`catch` merely
rethrows the caught error, so the validation error propagates unchanged. -/
def validateParsedJSON {T : Type} (validate : Json → Except Thrown T)
    (parsed : Json) : Except Thrown T :=
  match validate parsed with
  | .ok t => .ok t
  | .error e => .error e

/-- Embeds `codecs.jsonWithValidation` (via `jsonStrCodecWithValidation`):
`encode` is `JSON.stringify` on the typed value (supplied as the `stringify`
model parameter, since `T` is abstract), `decode` is `JSON.parse` (whose
`SyntaxError` propagates uncaught) followed by `validateParsedJSON`. -/
def jsonWithValidation {T : Type} (stringify : T → String)
    (validate : Json → Except Thrown T) : Codec T where
  encode t := .ok (stringify t)
  decode s :=
    match jsonParse s with
    | none => .error (jsonParseSyntaxError s)
    | some parsed => validateParsedJSON validate parsed

/-- Conversion of a thrown value by a JavaScript template literal
(`${e}` on an `Error` yields `"Error: " ++ message`). -/
def jsTemplateString : Thrown → String
  | .errorMsg m => "Error: " ++ m
  | .nonMessage => "[object Object]"

/-- Embeds the older `validateParsedJSON` variant (second document of
`BaseStorage.ts`, lines 125-135): the caught error is wrapped as
`validation error: ${e}` and, whenever `validatorName !== ''` (which also
holds when no name was supplied, interpolating the text `undefined`), the
name segment is prepended. -/
def validateParsedJSONVariant {T : Type} (validate : Json → Except Thrown T)
    (parsed : Json) (validatorName : Option String) : Except Thrown T :=
  match validate parsed with
  | .ok t => .ok t
  | .error e =>
    let base := "validation error: " ++ jsTemplateString e
    if validatorName = some "" then .error (.errorMsg base)
    else .error (.errorMsg ((validatorName.getD "undefined") ++ " " ++ base))

end codecs

/-! ### `BaseStorage.ts` -/

/-- Embeds the `BaseStorage` interface over an explicit state type `σ`:
`get` returns `null` (`none`) for an absent key, `set`/`remove` return the
updated state.  Every operation may throw; a throwing `set`/`remove` still
reports the state it left behind (JavaScript exceptions do not roll back
effects). -/
structure BaseStorage (σ : Type) where
  get : σ → String → Except Thrown (Option String)
  set : σ → String → String → Except Thrown Unit × σ
  remove : σ → String → Except Thrown Unit × σ

/-- Embeds `createInMemoryStorage`: a map-backed store that never throws,
with state modelled extensionally as `String → Option String`. -/
def createInMemoryStorage : BaseStorage (String → Option String) where
  get m k := .ok (m k)
  set m k v := (.ok (), fun k2 => if k2 = k then some v else m k2)
  remove m k := (.ok (), fun k2 => if k2 = k then none else m k2)

/-! ### `TypedStorage.ts` -/

/-- Embeds `errorWithCause`: when the cause exposes a string message the
new message appends it after `": "`, otherwise the cause text is omitted. -/
def errorWithCause (msg : String) : Thrown → Thrown
  | .errorMsg m => .errorMsg (msg ++ ": " ++ m)
  | .nonMessage => .errorMsg msg

/-- Embeds the closure `prefixed` of `createTypedStorage`: a missing
`keyPrefix` leaves the key unchanged, otherwise the physical key is
`${prefix}_${key}`. -/
def prefixed (pfx : Option String) (key : String) : String :=
  match pfx with
  | none => key
  | some p => p ++ "_" ++ key

/-- Embeds `createTypedStorage(...).get` for one spec entry: `codec` is the
codec the spec registers for `key` (`keyToCodec[key]`).  The base read and
the decode run inside one `try`; any caught error is re-thrown wrapped by
`errorWithCause` with a message naming the logical key. -/
def createTypedStorage.get {σ T : Type} (base : BaseStorage σ) (codec : Codec T)
    (pfx : Option String) (st : σ) (key : String) : Except Thrown (Option T) :=
  match base.get st (prefixed pfx key) with
  | .error e =>
    .error (errorWithCause ("failed to get value from storage (key: \x27" ++ key ++ "\x27)") e)
  | .ok none => .ok none
  | .ok (some rawVal) =>
    match codec.decode rawVal with
    | .ok v => .ok (some v)
    | .error e =>
      .error (errorWithCause ("failed to get value from storage (key: \x27" ++ key ++ "\x27)") e)

/-- Embeds `createTypedStorage(...).set` for one spec entry: encode first,
then write the encoded string at the prefixed physical key; any error from
either step is wrapped with a message naming the logical key.  The state
component records the storage contents after the call. -/
def createTypedStorage.set {σ T : Type} (base : BaseStorage σ) (codec : Codec T)
    (pfx : Option String) (st : σ) (key : String) (value : T) :
    Except Thrown Unit × σ :=
  match codec.encode value with
  | .error e =>
    (.error (errorWithCause ("failed to set value from storage (key: \x27" ++ key ++ "\x27)") e), st)
  | .ok encoded =>
    match base.set st (prefixed pfx key) encoded with
    | (.ok _, st2) => (.ok (), st2)
    | (.error e, st2) =>
      (.error (errorWithCause ("failed to set value from storage (key: \x27" ++ key ++ "\x27)") e), st2)

/-- Embeds `createTypedStorage(...).remove`: delete the prefixed physical
key; errors are wrapped naming the logical key (the source message writes
`(key : '...')` with a space before the colon). -/
def createTypedStorage.remove {σ : Type} (base : BaseStorage σ)
    (pfx : Option String) (st : σ) (key : String) : Except Thrown Unit × σ :=
  match base.remove st (prefixed pfx key) with
  | (.ok _, st2) => (.ok (), st2)
  | (.error e, st2) =>
    (.error (errorWithCause ("failed to remove value from storage (key : \x27" ++ key ++ "\x27)") e), st2)

/-! ### A concrete platform number model

A small closed set of JavaScript numbers with their exact `toString`
spellings and `Number(string)` parses, witnessing that `NumModel` is
satisfiable (`(-0).toString()` is `"0"`, which is why the codec
special-cases `-0`). -/

inductive MiniNum where
  | nan
  | negZero
  | zero
  | one
  | hundred
  | inf
  | negInf
deriving DecidableEq, Repr, Fintype

/-- The `toString` spelling of each `MiniNum`. -/
def MiniNum.str : MiniNum → String
  | .nan => "NaN"
  | .negZero => "0"
  | .zero => "0"
  | .one => "1"
  | .hundred => "100"
  | .inf => "Infinity"
  | .negInf => "-Infinity"

/-- The `Number(string)` parse of the spellings that occur in the model
(any other input parses to `NaN`, which is all the codec observes). -/
def MiniNum.ofStr (s : String) : MiniNum :=
  if s = "0" then .zero
  else if s = "-0" then .negZero
  else if s = "1" then .one
  else if s = "100" then .hundred
  else if s = "Infinity" then .inf
  else if s = "-Infinity" then .negInf
  else .nan

/-- The concrete `NumModel` instance over `MiniNum`. -/
def miniNumModel : NumModel where
  N := MiniNum
  nanVal := .nan
  isNaN x := x = MiniNum.nan
  isNegZero x := x = MiniNum.negZero
  numToString := MiniNum.str
  numOfString := MiniNum.ofStr
  ofString_toString := by decide
  toString_ne_NaN := by decide
  toString_nanVal := by decide
  eq_nanVal_of_isNaN := by decide
  isNegZero_nanVal := by decide
  ofString_negZero := by decide
  isNaN_of_isNegZero := by decide

/-! ### Test fixtures used by concrete witnesses -/

/-- The state of a freshly created in-memory storage. -/
def memEmpty : String → Option String := fun _ => none

/-- A codec whose operations always throw, probing the error paths of the
facade (any user-supplied object satisfying the `Codec` interface may
throw). -/
def failingCodec : Codec Unit where
  encode _ := .error (.errorMsg "encode failure")
  decode _ := .error (.errorMsg "decode failure")

/-- A base-storage state holding an undecodable raw string at key `k`. -/
def corruptMem : String → Option String :=
  fun k => if k = "k" then some "nope" else none

/-- Storage state after `set('key', 100)` on a fresh in-memory storage. -/
def c8AfterSet : Except Thrown Unit × (String → Option String) :=
  createTypedStorage.set createInMemoryStorage (codecs.number miniNumModel)
    none memEmpty "key" .hundred

/-- Storage state after the subsequent `remove('key')`. -/
def c8AfterRemove : Except Thrown Unit × (String → Option String) :=
  createTypedStorage.remove createInMemoryStorage none c8AfterSet.2 "key"

/-- A validation function that always rejects, with a recognisable
message. -/
def probeValidate : Json → Except Thrown Unit :=
  fun _ => .error (.errorMsg "validator rejected the value")

/-- The `JSON.stringify` model for the `Unit` payload of `probeValidate`. -/
def probeStringify : Unit → String := fun _ => "null"

/-- Spec-side reading (for comparison against the source behaviour) of the
wrapping contract the spec states for `jsonWithValidation`: the propagated
error must be a new message-bearing error whose message contains the
original error's message together with added wrapper text (so it differs
from the original), and contains the validator name whenever one was
supplied. -/
def isWrappedValidationError (orig : Thrown) (validatorName : Option String)
    (e : Thrown) : Prop :=
  match orig, e with
  | .errorMsg om, .errorMsg em =>
      om.data <:+: em.data ∧ em ≠ om ∧
      ∀ nm, validatorName = some nm → nm.data <:+: em.data
  | _, _ => False

/-- Spec-side reading of "valid decimal integer literal": an optional sign
followed by one or more decimal digits (fractional and `n`-suffixed forms
are therefore not literals). -/
def isDecimalIntegerLiteral (s : String) : Bool :=
  match s.toList with
  | [] => false
  | c :: rest =>
    if c = '+' ∨ c = '-' then !rest.isEmpty && rest.all isDecDigit
    else (c :: rest).all isDecDigit

/-- The integer a decimal integer literal denotes (positional value with
the optional sign applied). -/
def decimalIntegerValue (s : String) : Int :=
  match s.toList with
  | [] => 0
  | c :: rest =>
    if c = '-' then -(((parseDigitsAcc 10 0 rest).getD 0 : Nat) : Int)
    else if c = '+' then ((parseDigitsAcc 10 0 rest).getD 0 : Int)
    else ((parseDigitsAcc 10 0 (c :: rest)).getD 0 : Int)

/-! ### Helper lemmas -/

theorem underscore_length : ("_" : String).length = 1 := rfl

theorem prefixed_ne {p1 p2 : Option String} (k : String) (h : p1 ≠ p2) :
    prefixed p1 k ≠ prefixed p2 k := by
  match p1, p2 with
  | none, none => exact absurd rfl h
  | none, some p =>
    intro he
    have hlen := congrArg String.length he
    simp only [prefixed, String.length_append, underscore_length] at hlen
    omega
  | some p, none =>
    intro he
    have hlen := congrArg String.length he
    simp only [prefixed, String.length_append, underscore_length] at hlen
    omega
  | some p, some q =>
    intro he
    apply h
    have hd := congrArg String.data he
    simp only [prefixed, String.data_append] at hd
    rw [List.append_assoc, List.append_assoc] at hd
    exact congrArg some (String.ext (List.append_cancel_right hd))

/-! ### Claim theorems -/

/-- C10: `codecs.string.encode` and `codecs.string.decode` are both the
identity on strings, `decode` never raises, and for a key bound to the
string codec `TypedStorage.get` returns whatever raw string is stored at
the physical slot, so corruption at such a key is never detected. -/
theorem string_codec_identity :
    (∀ s, codecs.string.encode s = .ok s)
    ∧ (∀ s, codecs.string.decode s = .ok s)
    ∧ ∀ (m : String → Option String) (pfx : Option String) (k raw : String),
        m (prefixed pfx k) = some raw →
        createTypedStorage.get createInMemoryStorage codecs.string pfx m k =
          .ok (some raw) := by
  refine ⟨fun s => rfl, fun s => rfl, ?_⟩
  intro m pfx k raw h
  simp [createTypedStorage.get, createInMemoryStorage, h, codecs.string]

theorem string_codec_identity_witness :
    createTypedStorage.get createInMemoryStorage codecs.string none corruptMem "k" =
      .ok (some "nope") :=
  string_codec_identity.2.2 corruptMem none "k" "nope" rfl

/-- C9: if the codec's `encode` raises during `TypedStorage.set`, then
`set` raises a wrapping error that names the logical key and carries the
original error, and the base storage's contents are completely unchanged
(the conclusion holds for every base storage, so no base write occurs). -/
theorem typedstorage_set_encode_failure {σ T : Type} (base : BaseStorage σ)
    (codec : Codec T) (pfx : Option String) (st : σ) (key : String) (v : T)
    (e : Thrown) (he : codec.encode v = .error e) :
    createTypedStorage.set base codec pfx st key v =
      (.error (errorWithCause
        ("failed to set value from storage (key: \x27" ++ key ++ "\x27)") e), st) := by
  simp [createTypedStorage.set, he]

theorem typedstorage_set_encode_failure_witness :
    createTypedStorage.set createInMemoryStorage failingCodec none memEmpty "key" () =
      (.error (errorWithCause
        ("failed to set value from storage (key: \x27" ++ "key" ++ "\x27)")
        (.errorMsg "encode failure")), memEmpty) :=
  typedstorage_set_encode_failure createInMemoryStorage failingCodec none
    memEmpty "key" () (.errorMsg "encode failure") rfl

/-- C8: over a fresh in-memory base storage with spec `{ key: numberCodec }`,
`set('key', 100)` then `get('key')` returns `100`; `get` of a key never set
returns `null`; after `remove('key')`, `get('key')` returns `null`. -/
theorem typedstorage_basic_ops :
    createTypedStorage.get createInMemoryStorage (codecs.number miniNumModel)
        none c8AfterSet.2 "key" = .ok (some .hundred)
    ∧ createTypedStorage.get createInMemoryStorage (codecs.number miniNumModel)
        none memEmpty "key" = .ok none
    ∧ createTypedStorage.get createInMemoryStorage (codecs.number miniNumModel)
        none c8AfterRemove.2 "key" = .ok none :=
  ⟨rfl, rfl, rfl⟩

/-- C2: for a registered key, `TypedStorage.get` returns `null` without
invoking the codec when the base storage reports absence (the result does
not depend on the codec); returns the decoded value when the raw string
decodes; and when the decode or the base read raises, raises a wrapping
error whose message names the logical key and carries the original error's
message — never returning a value or `null` in that case. -/
theorem typedstorage_get_contract {σ T : Type} (base : BaseStorage σ) (st : σ)
    (pfx : Option String) (key : String) :
    (base.get st (prefixed pfx key) = .ok none →
       ∀ c1 c2 : Codec T,
         createTypedStorage.get base c1 pfx st key = .ok none ∧
         createTypedStorage.get base c1 pfx st key =
           createTypedStorage.get base c2 pfx st key)
    ∧ (∀ (c : Codec T) (raw : String) (v : T),
         base.get st (prefixed pfx key) = .ok (some raw) →
         c.decode raw = .ok v →
         createTypedStorage.get base c pfx st key = .ok (some v))
    ∧ (∀ (c : Codec T) (raw m : String),
         base.get st (prefixed pfx key) = .ok (some raw) →
         c.decode raw = .error (.errorMsg m) →
         createTypedStorage.get base c pfx st key =
           .error (.errorMsg
             ("failed to get value from storage (key: \x27" ++ key ++ "\x27)" ++ ": " ++ m)))
    ∧ (∀ (c : Codec T) (m : String),
         base.get st (prefixed pfx key) = .error (.errorMsg m) →
         createTypedStorage.get base c pfx st key =
           .error (.errorMsg
             ("failed to get value from storage (key: \x27" ++ key ++ "\x27)" ++ ": " ++ m))) := by
  refine ⟨?_, ?_, ?_, ?_⟩
  · intro h c1 c2
    constructor <;> simp [createTypedStorage.get, h]
  · intro c raw v h hd
    simp [createTypedStorage.get, h, hd]
  · intro c raw m h hd
    simp [createTypedStorage.get, h, hd, errorWithCause]
  · intro c m h
    simp [createTypedStorage.get, h, errorWithCause]

theorem typedstorage_get_contract_witness :
    createTypedStorage.get createInMemoryStorage codecs.boolean none corruptMem "k" =
      .error (.errorMsg
        ("failed to get value from storage (key: \x27" ++ "k" ++ "\x27)" ++ ": " ++
          ("input \x27" ++ "nope" ++ "\x27 is not decodable as boolean"))) :=
  (typedstorage_get_contract createInMemoryStorage corruptMem none "k").2.2.1
    codecs.boolean "nope"
    ("input \x27" ++ "nope" ++ "\x27 is not decodable as boolean") rfl rfl

/-- C7: two typed-storage instances over the same in-memory base storage
with different `keyPrefix` options never observe each other's values: a
`set` of key `k` through the first leaves the second's `get(k)` unchanged,
because every logical key is translated to its own physical key. -/
theorem keyprefix_isolation {T U : Type} (c1 : Codec T) (c2 : Codec U)
    (p1 p2 : Option String) (hp : p1 ≠ p2) (m : String → Option String)
    (k : String) (v : T) :
    createTypedStorage.get createInMemoryStorage c2 p2
        (createTypedStorage.set createInMemoryStorage c1 p1 m k v).2 k =
      createTypedStorage.get createInMemoryStorage c2 p2 m k := by
  have hne := prefixed_ne k hp
  cases he : c1.encode v with
  | error e => simp [createTypedStorage.set, he]
  | ok enc =>
    simp only [createTypedStorage.set, he, createInMemoryStorage,
      createTypedStorage.get]
    rw [if_neg (fun hh => hne hh.symm)]

theorem keyprefix_isolation_witness :
    createTypedStorage.get createInMemoryStorage codecs.string none
        (createTypedStorage.set createInMemoryStorage codecs.string (some "ns")
          memEmpty "key" "value").2 "key" =
      createTypedStorage.get createInMemoryStorage codecs.string none memEmpty "key" :=
  keyprefix_isolation codecs.string codecs.string (some "ns") none
    (by decide) memEmpty "key" "value"

/-- C4: for every platform number model satisfying the ECMAScript
conversion guarantees, `codecs.number` round-trips every supported number
(`decode (encode x) = x`, covering finite numbers, `±Infinity`, `-0` and
`NaN`), with `-0` encoding to the literal text `"-0"` and `"NaN"` decoding
to the not-a-number value. -/
theorem number_codec_roundtrip (M : NumModel) :
    (∀ (x : M.N) (s : String),
       (codecs.number M).encode x = .ok s → (codecs.number M).decode s = .ok x)
    ∧ (∀ x : M.N, M.isNegZero x = true → (codecs.number M).encode x = .ok "-0")
    ∧ (codecs.number M).decode "NaN" = .ok M.nanVal := by
  refine ⟨?_, ?_, rfl⟩
  · intro x s h
    have hs : (if M.isNegZero x then "-0" else M.numToString x) = s := by
      simpa [codecs.number] using h
    subst hs
    by_cases hz : M.isNegZero x = true
    · rw [if_pos hz]
      have hnn := M.isNaN_of_isNegZero x hz
      have h1 := M.ofString_negZero x hz
      simp [codecs.number, h1, hnn]
    · rw [if_neg hz]
      by_cases hn : M.isNaN x = true
      · have hx := M.eq_nanVal_of_isNaN x hn
        subst hx
        rw [M.toString_nanVal]
        simp [codecs.number]
      · have hn2 : M.isNaN x = false := by
          cases hh : M.isNaN x
          · rfl
          · exact absurd hh hn
        have hz2 : M.isNegZero x = false := by
          cases hh : M.isNegZero x
          · rfl
          · exact absurd hh hz
        have h1 := M.ofString_toString x hn2 hz2
        have h2 := M.toString_ne_NaN x hn2
        simp [codecs.number, h1, h2, hn2]
  · intro x hz
    simp [codecs.number, hz]

theorem number_codec_roundtrip_witness :
    (codecs.number miniNumModel).decode "100" = .ok MiniNum.hundred
    ∧ (codecs.number miniNumModel).encode MiniNum.negZero = .ok "-0"
    ∧ (codecs.number miniNumModel).decode "NaN" = .ok MiniNum.nan :=
  ⟨(number_codec_roundtrip miniNumModel).1 MiniNum.hundred "100" rfl,
   (number_codec_roundtrip miniNumModel).2.1 MiniNum.negZero (by decide),
   (number_codec_roundtrip miniNumModel).2.2⟩

theorem tryMapDecode_eq_none {T : Type} (ec : Codec T) (strs : List String)
    (el : String) (hmem : el ∈ strs) (e : Thrown)
    (he : ec.decode el = .error e) :
    codecs.tryMapDecode ec strs = none := by
  induction strs with
  | nil => cases hmem
  | cons a as ih =>
    rcases List.mem_cons.mp hmem with rfl | hmem2
    · simp [codecs.tryMapDecode, he]
    · cases ha : ec.decode a <;> simp [codecs.tryMapDecode, ha, ih hmem2]

theorem all_isStr_map_str (strs : List String) :
    (strs.map Json.str).all Json.isStr = true := by
  induction strs with
  | nil => rfl
  | cons a as ih => simp_all [Json.isStr]

theorem map_asStr_map_str (strs : List String) :
    (strs.map Json.str).map Json.asStr = strs := by
  induction strs with
  | nil => rfl
  | cons a as ih => simp_all [Json.asStr]

/-- C5: `arrayOf(elemCodec).decode` raises the plain "array" decode error
when the input is not valid JSON, not a JSON array, or contains a
non-string entry, and raises the distinct "array of specified type" decode
error when the container shape is valid but some element's decode raises. -/
theorem arrayOf_error_discrimination {T : Type} (ec : Codec T) (s : String) :
    (jsonParse s = none →
       (codecs.arrayOf ec).decode s = .error (decodeError s "array"))
    ∧ (∀ j, jsonParse s = some j → (∀ elems, j ≠ .arr elems) →
       (codecs.arrayOf ec).decode s = .error (decodeError s "array"))
    ∧ (∀ elems, jsonParse s = some (.arr elems) →
       elems.all Json.isStr = false →
       (codecs.arrayOf ec).decode s = .error (decodeError s "array"))
    ∧ (∀ elems, jsonParse s = some (.arr elems) →
       elems.all Json.isStr = true →
       (∃ el ∈ elems.map Json.asStr, ∃ e, ec.decode el = .error e) →
       (codecs.arrayOf ec).decode s = .error (decodeError s "array of specified type")) := by
  refine ⟨?_, ?_, ?_, ?_⟩
  · intro h
    simp [codecs.arrayOf, h]
  · intro j hj hne
    match j with
    | .arr elems => exact absurd rfl (hne elems)
    | .null => simp [codecs.arrayOf, hj]
    | .bool b => simp [codecs.arrayOf, hj]
    | .num l => simp [codecs.arrayOf, hj]
    | .str t => simp [codecs.arrayOf, hj]
    | .obj ms => simp [codecs.arrayOf, hj]
  · intro elems hj hall
    simp only [codecs.arrayOf, hj]
    rw [if_neg (by simp [hall])]
  · intro elems hj hall hfail
    obtain ⟨el, hmem, e, he⟩ := hfail
    simp only [codecs.arrayOf, hj]
    rw [if_pos hall, tryMapDecode_eq_none ec _ el hmem e he]

theorem arrayOf_error_discrimination_witness :
    (codecs.arrayOf codecs.boolean).decode "[\"true\",\"false\",\"1\"]" =
      .error (decodeError "[\"true\",\"false\",\"1\"]" "array of specified type")
    ∧ (codecs.arrayOf codecs.string).decode "not json" =
      .error (decodeError "not json" "array") :=
  ⟨(arrayOf_error_discrimination codecs.boolean "[\"true\",\"false\",\"1\"]").2.2.2
      [.str "true", .str "false", .str "1"] rfl rfl
      ⟨"1", by simp [Json.asStr], decodeError "1" "boolean", rfl⟩,
   (arrayOf_error_discrimination codecs.string "not json").1 rfl⟩

theorem tupleDecodeElems_error_of_misalign {T : Type} (cs : List (Codec T))
    (strs : List String)
    (h : cs.length < strs.length ∨
      ∃ (i : Nat) (h1 : i < strs.length) (h2 : i < cs.length) (e : Thrown),
        (cs.get ⟨i, h2⟩).decode (strs.get ⟨i, h1⟩) = .error e) :
    ∃ el ∈ strs,
      codecs.tupleDecodeElems cs strs =
        .error (decodeError el "tuple of specified type") := by
  induction strs generalizing cs with
  | nil =>
    rcases h with h | ⟨i, h1, _, _, _⟩
    · exact absurd h (by simp)
    · exact absurd h1 (by simp)
  | cons e es ih =>
    match cs with
    | [] =>
      exact ⟨e, List.mem_cons_self e es, rfl⟩
    | c :: cs2 =>
      cases hd : c.decode e with
      | error e1 =>
        exact ⟨e, List.mem_cons_self e es, by simp [codecs.tupleDecodeElems, hd]⟩
      | ok v =>
        have h2 : cs2.length < es.length ∨
            ∃ (i : Nat) (h1 : i < es.length) (h2 : i < cs2.length) (e1 : Thrown),
              (cs2.get ⟨i, h2⟩).decode (es.get ⟨i, h1⟩) = .error e1 := by
          rcases h with h | ⟨i, hi1, hi2, e1, he1⟩
          · exact Or.inl (by simpa using h)
          · match i with
            | 0 =>
              have he2 : c.decode e = .error e1 := he1
              rw [hd] at he2
              cases he2
            | i + 1 =>
              exact Or.inr ⟨i, by simpa using hi1, by simpa using hi2, e1, he1⟩
        obtain ⟨el, hmem, herr⟩ := ih cs2 h2
        exact ⟨el, List.mem_cons_of_mem e hmem,
          by simp [codecs.tupleDecodeElems, hd, herr, Except.map]⟩

theorem tupleDecodeElems_ok_of_aligned {T : Type} (cs : List (Codec T))
    (strs : List String) (hlen : strs.length ≤ cs.length)
    (hok : ∀ (i : Nat) (h1 : i < strs.length) (h2 : i < cs.length),
      ∃ v, (cs.get ⟨i, h2⟩).decode (strs.get ⟨i, h1⟩) = .ok v) :
    ∃ vs, codecs.tupleDecodeElems cs strs = .ok vs ∧ vs.length = strs.length := by
  induction strs generalizing cs with
  | nil => exact ⟨[], by cases cs <;> rfl, rfl⟩
  | cons e es ih =>
    match cs with
    | [] => exact absurd hlen (by simp)
    | c :: cs2 =>
      obtain ⟨v, hv⟩ := hok 0 (by simp) (by simp)
      have hv2 : c.decode e = .ok v := hv
      obtain ⟨vs, hvs, hl⟩ := ih cs2 (by simpa using hlen)
        (fun i hi1 hi2 => by
          obtain ⟨w, hw⟩ := hok (i + 1) (by simpa using hi1) (by simpa using hi2)
          exact ⟨w, hw⟩)
      refine ⟨v :: vs, ?_, by simp [hl]⟩
      simp [codecs.tupleDecodeElems, hv2, hvs, Except.map]

/-- C1 counterexample: a decoded JSON array strictly shorter than the codec
tuple does not raise — `tupleOf` performs no length check, so decoding
`["a"]` with two element codecs succeeds with a one-element tuple. -/
theorem tupleOf_no_short_length_check :
    (codecs.tupleOf [codecs.string, codecs.string]).decode "[\"a\"]" =
      .ok ["a"] := rfl

/-- C1 (amended): when the decoded JSON array is longer than the codec
tuple, or some in-range element's decode throws, `tupleOf(...).decode`
raises the "tuple of specified type" decode error (naming the offending
entry); but when the array is no longer than the codec tuple and every
entry decodes, decode succeeds — in particular a strictly shorter array is
not rejected. -/
theorem tupleOf_decode_amended :
    (∀ (T : Type) (ecs : List (Codec T)) (s : String) (strs : List String),
       jsonParse s = some (.arr (strs.map Json.str)) →
       (ecs.length < strs.length ∨
         ∃ (i : Nat) (h1 : i < strs.length) (h2 : i < ecs.length) (e : Thrown),
           (ecs.get ⟨i, h2⟩).decode (strs.get ⟨i, h1⟩) = .error e) →
       ∃ el ∈ strs,
         (codecs.tupleOf ecs).decode s =
           .error (decodeError el "tuple of specified type"))
    ∧ (∀ (T : Type) (ecs : List (Codec T)) (s : String) (strs : List String),
       jsonParse s = some (.arr (strs.map Json.str)) →
       strs.length ≤ ecs.length →
       (∀ (i : Nat) (h1 : i < strs.length) (h2 : i < ecs.length),
         ∃ v, (ecs.get ⟨i, h2⟩).decode (strs.get ⟨i, h1⟩) = .ok v) →
       ∃ vs, (codecs.tupleOf ecs).decode s = .ok vs ∧ vs.length = strs.length) := by
  constructor
  · intro T ecs s strs hp h
    obtain ⟨el, hmem, herr⟩ := tupleDecodeElems_error_of_misalign ecs strs h
    refine ⟨el, hmem, ?_⟩
    simp only [codecs.tupleOf, hp]
    rw [if_pos (all_isStr_map_str strs), map_asStr_map_str, herr]
  · intro T ecs s strs hp hlen hok
    obtain ⟨vs, hvs, hl⟩ := tupleDecodeElems_ok_of_aligned ecs strs hlen hok
    refine ⟨vs, ?_, hl⟩
    simp only [codecs.tupleOf, hp]
    rw [if_pos (all_isStr_map_str strs), map_asStr_map_str, hvs]

theorem tupleOf_decode_amended_witness :
    ∃ el ∈ ["a", "b"],
      (codecs.tupleOf [codecs.string]).decode "[\"a\",\"b\"]" =
        .error (decodeError el "tuple of specified type") :=
  tupleOf_decode_amended.1 String [codecs.string] "[\"a\",\"b\"]" ["a", "b"]
    rfl (Or.inl (by decide))

/-- C3 counterexample: in `codecs.jsonWithValidation` (which accepts no
validator name), a raising validate function propagates its error to the
caller completely unchanged — the result is not a wrapped error in the
spec's sense (no wrapper text is added to the original message). -/
theorem jsonWithValidation_no_wrapping_counterexample :
    (codecs.jsonWithValidation probeStringify probeValidate).decode "1" =
      .error (.errorMsg "validator rejected the value")
    ∧ ¬ isWrappedValidationError (.errorMsg "validator rejected the value")
        none (.errorMsg "validator rejected the value") := by
  refine ⟨rfl, ?_⟩
  intro h
  exact h.2.1 rfl

/-- C3 (amended): when the validate function raises during
`jsonWithValidation(...).decode`, the original error propagates to the
caller unchanged: `validateParsedJSON` rethrows the caught error as is, and
`jsonWithValidation` accepts no validator name, so no wrapping and no
naming occurs.  (Only the older variant embedded as
`validateParsedJSONVariant` wraps, prepending a name segment whenever
`validatorName !== ''`, including the interpolated text `undefined` when no
name was supplied.) -/
theorem jsonWithValidation_error_passthrough {T : Type} (stringify : T → String)
    (validate : Json → Except Thrown T) (s : String) (parsed : Json)
    (e : Thrown) (hp : jsonParse s = some parsed)
    (hv : validate parsed = .error e) :
    (codecs.jsonWithValidation stringify validate).decode s = .error e := by
  simp [codecs.jsonWithValidation, codecs.validateParsedJSON, hp, hv]

theorem jsonWithValidation_error_passthrough_witness :
    (codecs.jsonWithValidation probeStringify probeValidate).decode "true" =
      .error (.errorMsg "validator rejected the value") :=
  jsonWithValidation_error_passthrough probeStringify probeValidate "true"
    (.bool true) (.errorMsg "validator rejected the value") rfl rfl

theorem not_ws_of_isDecDigit {c : Char} (h : isDecDigit c = true) :
    isJsWhitespace c = false := by
  simp only [isDecDigit, Bool.and_eq_true, decide_eq_true_eq] at h
  obtain ⟨h1, h2⟩ := h
  cases hw : isJsWhitespace c
  · rfl
  · exfalso
    simp only [isJsWhitespace, Bool.or_eq_true, beq_iff_eq] at hw
    rcases hw with ((((((rfl | rfl) | rfl) | rfl) | rfl) | rfl) | rfl) | rfl <;>
      revert h1 h2 <;> decide

theorem dropWhile_eq_self_of_not (p : Char → Bool) (cs : List Char)
    (h : ∀ c ∈ cs, p c = false) : cs.dropWhile p = cs := by
  cases cs with
  | nil => rfl
  | cons a l => simp [List.dropWhile_cons, h a (by simp)]

theorem trimJsWs_eq_self (cs : List Char)
    (h : ∀ c ∈ cs, isJsWhitespace c = false) : trimJsWs cs = cs := by
  unfold trimJsWs
  rw [dropWhile_eq_self_of_not _ cs h,
    dropWhile_eq_self_of_not _ cs.reverse
      (fun c hc => h c (List.mem_reverse.mp hc)),
    List.reverse_reverse]

theorem digitValue_ten {c : Char} (h : isDecDigit c = true) :
    digitValue 10 c = some (c.toNat - 48) := by
  simp only [isDecDigit, Bool.and_eq_true, decide_eq_true_eq] at h
  obtain ⟨h1, h2⟩ := h
  have hb : digitValue 10 c =
      if c.toNat - 48 < 10 then some (c.toNat - 48) else none := by
    simp [digitValue, h1, h2]
  rw [hb, if_pos (by omega)]

theorem parseDigitsAcc_isSome (cs : List Char)
    (h : ∀ c ∈ cs, isDecDigit c = true) :
    ∀ acc, ∃ n, parseDigitsAcc 10 acc cs = some n := by
  induction cs with
  | nil => exact fun acc => ⟨acc, rfl⟩
  | cons a l ih =>
    intro acc
    have hd := digitValue_ten (h a (by simp))
    obtain ⟨n, hn⟩ := ih (fun c hc => h c (by simp [hc])) (acc * 10 + (a.toNat - 48))
    exact ⟨n, by simp [parseDigitsAcc, hd, hn]⟩

theorem ne_of_isDecDigit {c d : Char} (h : isDecDigit c = true)
    (hd : isDecDigit d = false) : c ≠ d := by
  intro he
  rw [he, hd] at h
  cases h

theorem stringToBigIntCore_cons (c1 : Char) (rest1 : List Char)
    (h0 : c1 ≠ '0') :
    stringToBigIntCore (c1 :: rest1) =
      if c1 = '+' then (digitsToNat 10 rest1).map Int.ofNat
      else if c1 = '-' then (digitsToNat 10 rest1).map (fun n => -(n : Int))
      else (digitsToNat 10 (c1 :: rest1)).map Int.ofNat := by
  simp only [stringToBigIntCore]
  rw [if_neg h0]

theorem stringToBigIntCore_zero_cons (c2 : Char) (rest2 : List Char) :
    stringToBigIntCore ('0' :: c2 :: rest2) =
      if c2 = 'b' ∨ c2 = 'B' then (digitsToNat 2 rest2).map Int.ofNat
      else if c2 = 'o' ∨ c2 = 'O' then (digitsToNat 8 rest2).map Int.ofNat
      else if c2 = 'x' ∨ c2 = 'X' then (digitsToNat 16 rest2).map Int.ofNat
      else (digitsToNat 10 ('0' :: c2 :: rest2)).map Int.ofNat := by
  simp [stringToBigIntCore]

/-- C6 counterexample: the empty string is not a valid integer literal in
any sense, yet `codecs.bigint.decode` does not raise on it — per
`StringToBigInt` a whitespace-only string denotes `0`. -/
theorem bigint_empty_decode_counterexample :
    isDecimalIntegerLiteral "" = false ∧ codecs.bigint.decode "" = .ok 0 :=
  ⟨rfl, rfl⟩

/-- C6 (amended): `codecs.bigint.decode` returns the denoted integer on
every valid decimal integer literal and raises the "bigint" decode error on
fractional (`'1.5'`) and `n`-suffixed (`'10n'`) forms; but it does not
raise exactly on non-literals: per `StringToBigInt` the empty (or
whitespace-only) string decodes to `0` and `0b`/`0o`/`0x`-prefixed numerals
are also accepted (`'0x10'` decodes to `16`). -/
theorem bigint_decode_amended :
    (∀ s : String, isDecimalIntegerLiteral s = true →
        codecs.bigint.decode s = .ok (decimalIntegerValue s))
    ∧ codecs.bigint.decode "1.5" = .error (decodeError "1.5" "bigint")
    ∧ codecs.bigint.decode "10n" = .error (decodeError "10n" "bigint")
    ∧ codecs.bigint.decode "" = .ok 0
    ∧ codecs.bigint.decode "0x10" = .ok 16 := by
  refine ⟨?_, rfl, rfl, rfl, rfl⟩
  intro s hs
  rcases hl : s.toList with _ | ⟨c1, rest⟩
  · simp only [isDecimalIntegerLiteral, hl] at hs
    cases hs
  · have hl2 : s.data = c1 :: rest := hl
    have hcore : stringToBigInt s = some (decimalIntegerValue s) := by
      by_cases hsign : c1 = '+' ∨ c1 = '-'
      · simp only [isDecimalIntegerLiteral, hl, if_pos hsign] at hs
        rw [Bool.and_eq_true] at hs
        obtain ⟨hne, hall⟩ := hs
        have hdig : ∀ c ∈ rest, isDecDigit c = true := by
          simpa [List.all_eq_true] using hall
        have hrne : rest.isEmpty = false := by
          cases hh : rest.isEmpty
          · rfl
          · rw [hh] at hne; cases hne
        have htrim : trimJsWs s.toList = s.toList := by
          rw [hl]
          apply trimJsWs_eq_self
          intro c hc
          rcases List.mem_cons.mp hc with rfl | hc2
          · rcases hsign with rfl | rfl <;> decide
          · exact not_ws_of_isDecDigit (hdig c hc2)
        obtain ⟨n, hn⟩ := parseDigitsAcc_isSome rest hdig 0
        unfold stringToBigInt
        rw [htrim, hl]
        rcases hsign with rfl | rfl
        · rw [stringToBigIntCore_cons _ _ (by decide), if_pos rfl]
          simp only [digitsToNat, hrne, Bool.false_eq_true, if_false, hn]
          simp [decimalIntegerValue, hl, hl2, hn]
        · rw [stringToBigIntCore_cons _ _ (by decide),
            if_neg (by decide : ¬ ('-' : Char) = '+'), if_pos rfl]
          simp only [digitsToNat, hrne, Bool.false_eq_true, if_false, hn]
          simp [decimalIntegerValue, hl, hl2, hn]
      · simp only [isDecimalIntegerLiteral, hl, if_neg hsign] at hs
        have hdig : ∀ c ∈ c1 :: rest, isDecDigit c = true := by
          simpa [List.all_eq_true] using hs
        have hc1 := hdig c1 (by simp)
        have hplus : ¬ c1 = '+' := fun he => hsign (Or.inl he)
        have hminus : ¬ c1 = '-' := fun he => hsign (Or.inr he)
        have htrim : trimJsWs s.toList = s.toList := by
          rw [hl]
          exact trimJsWs_eq_self _ (fun c hc => not_ws_of_isDecDigit (hdig c hc))
        obtain ⟨n, hn⟩ := parseDigitsAcc_isSome (c1 :: rest) hdig 0
        unfold stringToBigInt
        rw [htrim, hl]
        by_cases h0 : c1 = '0'
        · subst h0
          cases rest with
          | nil =>
            simp only [decimalIntegerValue, hl, hl2]
            decide
          | cons c2 rest2 =>
            have hc2 := hdig c2 (by simp)
            rw [stringToBigIntCore_zero_cons,
              if_neg (by rintro (rfl | rfl) <;> exact absurd hc2 (by decide)),
              if_neg (by rintro (rfl | rfl) <;> exact absurd hc2 (by decide)),
              if_neg (by rintro (rfl | rfl) <;> exact absurd hc2 (by decide))]
            simp only [digitsToNat, List.isEmpty_cons, Bool.false_eq_true,
              if_false, hn]
            simp [decimalIntegerValue, hl, hl2, hn]
        · rw [stringToBigIntCore_cons _ _ h0, if_neg hplus, if_neg hminus]
          simp only [digitsToNat, List.isEmpty_cons, Bool.false_eq_true,
            if_false, hn]
          simp [decimalIntegerValue, hl, hl2, hn, hplus, hminus]
    simp [codecs.bigint, hcore]

theorem bigint_decode_amended_witness :
    codecs.bigint.decode "-42" = .ok (decimalIntegerValue "-42") :=
  bigint_decode_amended.1 "-42" rfl

end TsSouko
